import Mathlib

/-!
# Verification of the Gess rules engine

A shallow embedding of the Gess game sources (`stone.py`, `stoneCollection.py`,
`piece.py`, `move.py`, `board.py`, `Gess.py`) together with theorems settling
the behavioural claims about the move-legality and board-mutation engine.

Modelling choices:
* Python `Stone` objects are mutable and aliased between the board's
  `StoneCollection` and transient `Piece` views.  We model the object heap
  explicitly: `Heap := Nat → Stone` maps a stone identity to its current
  field values, the board collection is a `List Nat` of identities (the order
  of `StoneCollection._stoneList`), and a `Piece` holds the identities of its
  member stones.  In-place mutation (`hide`, `reveal`, `move`) becomes a heap
  update; `StoneCollection.remove` deletes an identity from the list while the
  object stays on the heap, exactly as a removed Python object survives while
  a `Piece` still references it.
* Board coordinates are integer pairs; the walk in `Board.is_path_clear` can
  leave the 1..20 grid, so no bound is baked into the type.
* The `while` loop of `Board.is_path_clear` is the one construct with no
  structural termination measure; it is embedded with explicit fuel
  (`pathLoop`), `none` meaning the loop has not exited within the given fuel.
-/

namespace Gess

/-- A player colour ("WHITE" / "BLACK" in the source). -/
inductive Player where
  | white
  | black
deriving DecidableEq, Repr

/-- The `OPPONENT` lookup table. -/
def opponent : Player → Player
  | .white => .black
  | .black => .white

/-- A board coordinate `(row, column)`. -/
abbrev Coord := Int × Int

/-- `Stone`: row, column, owner and the hidden flag (`_row`, `_column`,
`_owner`, `_hidden`). -/
structure Stone where
  row : Int
  col : Int
  owner : Player
  hidden : Bool
deriving DecidableEq, Repr

/-- `Stone.get_location`. -/
def Stone.loc (s : Stone) : Coord := (s.row, s.col)

/-- `Stone.hide`. -/
def hideStone (s : Stone) : Stone := { s with hidden := true }

/-- `Piece.put_down` performs `stone.reveal()` followed by
`stone.move(displ[0], displ[1])` on each member stone. -/
def revealMove (d : Coord) (s : Stone) : Stone :=
  { s with hidden := false, row := s.row + d.1, col := s.col + d.2 }

/-- The object heap: stone identity ↦ current stone fields. -/
abbrev Heap := Nat → Stone

/-- `StoneCollection.get_stone_at_location`: first stone in the list whose
location equals the target, as its identity. -/
def getStoneAt (h : Heap) (ids : List Nat) (target : Coord) : Option Nat :=
  ids.find? (fun i => decide ((h i).loc = target))

/-- The nine footprint coordinates scanned by
`StoneCollection.get_stones_about_center`, in its loop order
(row offset −1..1 outer, column offset −1..1 inner). -/
def footprintCoords (c : Coord) : List Coord :=
  [(c.1 - 1, c.2 - 1), (c.1 - 1, c.2), (c.1 - 1, c.2 + 1),
   (c.1, c.2 - 1), (c.1, c.2), (c.1, c.2 + 1),
   (c.1 + 1, c.2 - 1), (c.1 + 1, c.2), (c.1 + 1, c.2 + 1)]

/-- `StoneCollection.get_stones_about_center`: for each footprint coordinate,
the stone found there (if any), in scan order. -/
def stonesAboutCenter (h : Heap) (ids : List Nat) (c : Coord) : List Nat :=
  (footprintCoords c).filterMap (getStoneAt h ids)

/-- `StoneCollection.is_empty`: true iff every stone in the collection is
hidden (an empty list counts as empty). -/
def isEmptyIds (h : Heap) (ids : List Nat) : Bool :=
  ids.all (fun i => (h i).hidden)

/-- `StoneCollection.remove`: delete the first stone whose location matches,
returning whether a deletion happened together with the new list.  The hidden
flag is not consulted. -/
def removeLoc (h : Heap) : List Nat → Coord → Bool × List Nat
  | [], _ => (false, [])
  | i :: rest, target =>
    if (h i).loc = target then (true, rest)
    else
      let r := removeLoc h rest target
      (r.1, i :: r.2)

/-- `firstRank` of `StoneCollection.populate`. -/
def firstRank : List Int := [3, 5, 7, 8, 9, 10, 11, 12, 13, 14, 16, 18]

/-- `secondRank` of `StoneCollection.populate`. -/
def secondRank : List Int := [2, 3, 4, 6, 8, 9, 10, 11, 13, 15, 17, 18, 19]

/-- `fourthRank` of `StoneCollection.populate`. -/
def fourthRank : List Int := [3, 6, 9, 12, 15, 18]

/-- One row of the opening layout. -/
def rankStones (owner : Player) (row : Int) (cols : List Int) : List Stone :=
  cols.map (fun c => ⟨row, c, owner, false⟩)

/-- `StoneCollection.populate`: the stones of the opening layout in insertion
order (the WHITE rows 19, 18, 17, 14, then the BLACK rows 2, 3, 4, 7 —
`thirdRank` is `firstRank` in the source). -/
def initStones : List Stone :=
  rankStones .white 19 firstRank ++ rankStones .white 18 secondRank ++
  rankStones .white 17 firstRank ++ rankStones .white 14 fourthRank ++
  rankStones .black 2 firstRank ++ rankStones .black 3 secondRank ++
  rankStones .black 4 firstRank ++ rankStones .black 7 fourthRank

/-- Initial heap: identity `i` holds the `i`-th stone of the opening layout. -/
def initHeap : Heap := fun i => initStones.getD i ⟨0, 0, .white, false⟩

/-- Initial collection: all opening-layout identities in list order. -/
def initIds : List Nat := List.range initStones.length

/-- `Piece`: center, member stone identities, and the direction list and
maximum distance that `Piece.__init__` derives and caches. -/
structure Piece where
  center : Coord
  stoneIds : List Nat
  directions : List Coord
  maxDistance : Option Nat
deriving Repr

/-- `Piece.__determine_directions`: the `(stone - center)` offset of every
member stone, in list order, with the first occurrence of `(0, 0)` removed
when present (`directions.remove((0, 0))` removes one occurrence and is a
no-op when `(0, 0)` is absent, as is `List.erase`). -/
def determineDirections (h : Heap) (center : Coord) (ids : List Nat) : List Coord :=
  (ids.map (fun i => ((h i).row - center.1, (h i).col - center.2))).erase
    ((0 : Int), (0 : Int))

/-- `Piece.__determine_max_distance`: starts at 3 and becomes `None`
(unbounded) whenever a member stone sits on the center; the loop never resets
it. -/
def determineMaxDistance (h : Heap) (center : Coord) (ids : List Nat) : Option Nat :=
  ids.foldl (fun acc i => if (h i).loc = center then none else acc) (some 3)

/-- `Piece.__init__`: store center and member stones, derive directions and
maximum distance from the heap at construction time. -/
def mkPiece (h : Heap) (center : Coord) (ids : List Nat) : Piece :=
  { center := center
    stoneIds := ids
    directions := determineDirections h center ids
    maxDistance := determineMaxDistance h center ids }

/-- `Piece.contains_color`. -/
def containsColor (h : Heap) (p : Piece) (color : Player) : Bool :=
  p.stoneIds.any (fun i => (h i).owner = color)

/-- `Piece.is_legal`.  In the source the single-center-stone test reads
`self._stoneList[0].get_location == self._center`: the call parentheses are
missing, so the bound method object itself is compared with the center tuple,
and a bound method never equals a tuple.  Hence `oneCenterStone` stays `False`
for every piece, and the embedding records that constant outcome.  The other
two conditions are `not self.contains_color(OPPONENT[player])` and the
truthiness of `self._stoneList` (non-emptiness). -/
def pieceIsLegal (h : Heap) (p : Piece) (player : Player) : Bool :=
  let oneCenterStone := false
  !containsColor h p (opponent player) && !p.stoneIds.isEmpty && !oneCenterStone

/-- `Piece.pick_up`: hide every member stone, in list order. -/
def pickUp (ids : List Nat) (h : Heap) : Heap :=
  ids.foldl (fun h i => Function.update h i (hideStone (h i))) h

/-- `Piece.put_down`: displacement `destination − center`, then reveal and
translate every member stone. -/
def putDown (p : Piece) (destination : Coord) (h : Heap) : Heap :=
  let d : Coord := (destination.1 - p.center.1, destination.2 - p.center.2)
  p.stoneIds.foldl (fun h i => Function.update h i (revealMove d (h i))) h

/-- A `Board`: its `StoneCollection` as the heap of stone objects plus the
list of identities currently in the collection. -/
structure BState where
  heap : Heap
  ids : List Nat

/-- The board in the opening layout. -/
def initState : BState := ⟨initHeap, initIds⟩

/-- `Board.create_piece`. -/
def createPiece (h : Heap) (ids : List Nat) (center : Coord) : Piece :=
  mkPiece h center (stonesAboutCenter h ids center)

/-- `Board.capture`: fetch the footprint stones, then remove each non-hidden
one from the collection by its location. -/
def capture (h : Heap) (ids : List Nat) (center : Coord) : List Nat :=
  (stonesAboutCenter h ids center).foldl
    (fun acc i => if (h i).hidden then acc else (removeLoc h acc (h i).loc).2) ids

/-- The final loop of `Board.move_piece`: delete every member stone of the
piece that ended with a row or column equal to 20 or 1
(`20 in stone.get_location() or 1 in stone.get_location()`). -/
def boundaryRemove (h2 : Heap) (pieceIds ids : List Nat) : List Nat :=
  pieceIds.foldl
    (fun acc i =>
      if (h2 i).row = 20 ∨ (h2 i).col = 20 ∨ (h2 i).row = 1 ∨ (h2 i).col = 1
      then (removeLoc h2 acc (h2 i).loc).2 else acc) ids

/-- `Board.move_piece`: pick the piece up, capture at the destination, put the
piece down there, then remove the member stones that went out of bounds. -/
def movePiece (st : BState) (p : Piece) (destination : Coord) : BState :=
  let h1 := pickUp p.stoneIds st.heap
  let ids1 := capture h1 st.ids destination
  let h2 := putDown p destination h1
  ⟨h2, boundaryRemove h2 p.stoneIds ids1⟩

/-- The body of the `while` loop in `Board.is_path_clear`, with explicit fuel:
`none` means the loop has not reached its exit condition within `fuel`
iterations.  At each center the loop builds a `StoneCollection` of the
footprint stones and tests `is_empty` (hidden stones do not obstruct); on an
obstruction it records `isClear = False` and exits, otherwise it steps the
center by the direction. -/
def pathLoop (h : Heap) (ids : List Nat) (dest dir : Coord) : Nat → Coord → Option Bool
  | 0, center => if center = dest then some true else none
  | fuel + 1, center =>
    if center = dest then some true
    else if !isEmptyIds h (stonesAboutCenter h ids center) then some false
    else pathLoop h ids dest dir fuel (center.1 + dir.1, center.2 + dir.2)

/-- `Board.is_path_clear`: pick the piece up, trace the path from the origin,
put the piece back down at the origin, and return whether the path was clear.
`none` propagates fuel exhaustion of the non-terminating `while` loop. -/
def isPathClearFuel (fuel : Nat) (h : Heap) (ids : List Nat) (p : Piece)
    (origin dest dir : Coord) : Option (Bool × Heap) :=
  let h1 := pickUp p.stoneIds h
  match pathLoop h1 ids dest dir fuel origin with
  | none => none
  | some isClear => some (isClear, putDown p origin h1)

/-- Whether `Board.is_path_clear` terminates on the given arguments: some
amount of fuel makes the embedded loop reach its exit condition. -/
def isPathClearTerminates (h : Heap) (ids : List Nat) (p : Piece)
    (origin dest dir : Coord) : Prop :=
  ∃ fuel, (isPathClearFuel fuel h ids p origin dest dir).isSome = true

/-- `Board.has_ring`: scan rows and columns `3..18`
(`range(INNER_LOWER_BOUND+1, INNER_UPPER_BOUND)`): an empty cell whose
footprint holds exactly 8 stones, none hidden and none of the opponent's
colour, is a ring. -/
def hasRing (h : Heap) (ids : List Nat) (player : Player) : Bool :=
  (List.range 16).any fun r =>
    (List.range 16).any fun c =>
      let row : Int := (r : Int) + 3
      let col : Int := (c : Int) + 3
      match getStoneAt h ids (row, col) with
      | some _ => false
      | none =>
        let stoneList := stonesAboutCenter h ids (row, col)
        let anyHidden := stoneList.any (fun i => (h i).hidden)
        if stoneList.length = 8 ∧ anyHidden = false then
          let potentialRing := mkPiece h (row, col) stoneList
          !containsColor h potentialRing (opponent player)
        else false

/-- `Move.__init__` data: origin, destination, current player and the piece
(the board state is passed explicitly). -/
structure Move where
  origin : Coord
  destination : Coord
  currentPlayer : Player
  piece : Piece

/-- `self._rowDisplacement`. -/
def Move.rowDisplacement (m : Move) : Int := m.destination.1 - m.origin.1

/-- `self._colDisplacement`. -/
def Move.colDisplacement (m : Move) : Int := m.destination.2 - m.origin.2

/-- `Move.__determine_direction`: each nonzero displacement contributes
`d // abs(d)` (its sign), a zero displacement contributes 0. -/
def Move.direction (m : Move) : Coord :=
  (if m.rowDisplacement ≠ 0 then m.rowDisplacement / (m.rowDisplacement.natAbs : Int) else 0,
   if m.colDisplacement ≠ 0 then m.colDisplacement / (m.colDisplacement.natAbs : Int) else 0)

/-- `Move.is_direction_valid`: a move with nonzero row and column
displacements must be properly diagonal, and the direction tuple must occur in
the piece's direction list. -/
def isDirectionValid (m : Move) : Bool :=
  if m.rowDisplacement ≠ 0 ∧ m.colDisplacement ≠ 0 ∧
      m.rowDisplacement.natAbs ≠ m.colDisplacement.natAbs then false
  else decide (m.direction ∈ m.piece.directions)

/-- `Move.is_distance_valid`: with a bounded maximum distance neither absolute
displacement may exceed it; an unbounded piece always passes. -/
def isDistanceValid (m : Move) : Bool :=
  match m.piece.maxDistance with
  | none => true
  | some maxDistance =>
    !(m.rowDisplacement.natAbs > maxDistance ∨ m.colDisplacement.natAbs > maxDistance)

/-- `Move.is_legal`: pick the piece up; check piece legality, direction and
distance, returning `False` (with the piece still picked up) when any fails;
then check ring survival and path clarity; on success put the piece back down
at the origin and return `True`.  The result pairs the boolean with the heap
after the call; `none` propagates fuel exhaustion inside `is_path_clear`. -/
def moveIsLegal (fuel : Nat) (st : BState) (m : Move) : Option (Bool × Heap) :=
  let h1 := pickUp m.piece.stoneIds st.heap
  if pieceIsLegal h1 m.piece m.currentPlayer && isDirectionValid m && isDistanceValid m then
    let ringUnbroken := hasRing h1 st.ids m.currentPlayer
    match isPathClearFuel fuel h1 st.ids m.piece m.origin m.destination m.direction with
    | none => none
    | some (pathClear, h2) =>
      if ringUnbroken && pathClear then some (true, putDown m.piece m.origin h2)
      else some (false, h2)
  else some (false, h1)

/-- The game state string of `GessGame`. -/
inductive GameState where
  | unfinished
  | blackWon
  | whiteWon
deriving DecidableEq, Repr

/-- `GessGame`: game state, board and current player. -/
structure GessGame where
  gameState : GameState
  board : BState
  currentPlayer : Player

/-- `GessGame.get_game_state`. -/
def getGameState (g : GessGame) : GameState := g.gameState

/-- `GessGame.assign_victory`: two independent `if`s on the victor. -/
def assignVictory (victor : Player) (g : GessGame) : GessGame :=
  let g1 := if victor = .white then { g with gameState := .whiteWon } else g
  if victor = .black then { g1 with gameState := .blackWon } else g1

/-- `GessGame.resign_game`. -/
def resignGame (g : GessGame) : GessGame :=
  assignVictory (opponent g.currentPlayer) g

/-- The comparison in `GessGame.is_game_over`.  The source tests
`self.get_game_state == "UNFINISHED"`: the bound method object itself (the
call parentheses are missing), not the string it would return.  In Python a
method object never equals a string, so the comparison is `False` in every
game state. -/
def boundMethodEqualsUnfinished (_ : GessGame) : Bool := false

/-- `GessGame.is_game_over`: `if self.get_game_state == "UNFINISHED": return
True` followed by `return False`, with the comparison embedded by
`boundMethodEqualsUnfinished`. -/
def isGameOver (g : GessGame) : Bool :=
  if boundMethodEqualsUnfinished g then true else false

/-- One applied move as `GessGame.make_move` performs it: extract the piece at
the origin center (`Board.create_piece`) and apply `Board.move_piece` towards
the destination center. -/
def gstep (st : BState) (od : Coord × Coord) : BState :=
  movePiece st (createPiece st.heap st.ids od.1) od.2

/-- A sequence of applied moves, each given as (origin center, destination
center). -/
def applySeq (st : BState) : List (Coord × Coord) → BState
  | [] => st
  | od :: rest => applySeq (gstep st od) rest

/-- The playable centers: rows and columns 2..19, the domain that the input
validation of `GessGame.make_move` guarantees for origin and destination. -/
abbrev inPlay (c : Coord) : Prop :=
  2 ≤ c.1 ∧ c.1 ≤ 19 ∧ 2 ≤ c.2 ∧ c.2 ≤ 19

/-- The board-state invariant carried through move sequences: the collection
list holds no duplicate identities, every listed stone is un-hidden, listed
stones occupy pairwise distinct cells, and every listed stone lies in the
playable 2..19 square. -/
def GoodState (st : BState) : Prop :=
  st.ids.Nodup ∧
  (∀ i ∈ st.ids, (st.heap i).hidden = false) ∧
  (∀ i ∈ st.ids, ∀ j ∈ st.ids, i ≠ j → (st.heap i).loc ≠ (st.heap j).loc) ∧
  (∀ i ∈ st.ids, 2 ≤ (st.heap i).row ∧ (st.heap i).row ≤ 19 ∧
    2 ≤ (st.heap i).col ∧ (st.heap i).col ≤ 19)

/-- The move examined for claim C1: BLACK's piece centered on (7,3) — whose
sole stone is the fourth-rank stone at (7,3), identity 80 — aimed one row up. -/
def c1move : Move :=
  ⟨((7 : Int), (3 : Int)), ((8 : Int), (3 : Int)), .black,
    createPiece initHeap initIds ((7 : Int), (3 : Int))⟩

/-- A one-stone heap for claim C5: identity 0 is a hidden BLACK stone at
(5,5). -/
def hC5 : Heap := fun _ => ⟨5, 5, .black, true⟩

/-- A stoneless heap for the path-trace divergence of claim C3. -/
def hE : Heap := fun _ => ⟨0, 0, .white, false⟩

/-- A one-step in-play move sequence used to witness the C4 invariant. -/
def c4moves : List (Coord × Coord) :=
  [(((3 : Int), (3 : Int)), ((6 : Int), (3 : Int)))]

end Gess

/-! ## Basic lemmas about the stone heap and collection operations -/

namespace Gess

theorem hideStone_loc (s : Stone) : (hideStone s).loc = s.loc := rfl

theorem unhide_of_hidden_eq_false {s : Stone} (hs : s.hidden = false) :
    { s with hidden := false } = s := by
  cases s
  simp_all

/-- Pointwise value of a fold of heap updates by an idempotent stone
transformation (such as `hide`, or reveal-and-translate-by-zero). -/
theorem foldl_update_apply_of_idem (f : Stone → Stone) (hf : ∀ s, f (f s) = f s)
    (ids : List Nat) (h : Heap) (j : Nat) :
    ids.foldl (fun h i => Function.update h i (f (h i))) h j
      = if j ∈ ids then f (h j) else h j := by
  induction ids generalizing h with
  | nil => simp
  | cons i rest ih =>
    simp only [List.foldl_cons]
    rw [ih]
    by_cases hji : j = i
    · subst hji
      by_cases hjr : j ∈ rest <;>
        simp [hjr, Function.update_same, hf]
    · simp [Function.update_noteq hji, List.mem_cons, hji]

/-- Pointwise value of a fold of heap updates over a duplicate-free identity
list. -/
theorem foldl_update_apply_of_nodup (f : Stone → Stone) (ids : List Nat)
    (hnd : ids.Nodup) (h : Heap) (j : Nat) :
    ids.foldl (fun h i => Function.update h i (f (h i))) h j
      = if j ∈ ids then f (h j) else h j := by
  induction ids generalizing h with
  | nil => simp
  | cons i rest ih =>
    obtain ⟨hir, hrest⟩ := List.nodup_cons.mp hnd
    simp only [List.foldl_cons]
    rw [ih hrest]
    by_cases hji : j = i
    · subst hji
      simp [hir, Function.update_same]
    · simp [Function.update_noteq hji, List.mem_cons, hji]

theorem pickUp_apply (ids : List Nat) (h : Heap) (j : Nat) :
    pickUp ids h j = if j ∈ ids then hideStone (h j) else h j :=
  foldl_update_apply_of_idem hideStone (fun _ => rfl) ids h j

theorem pickUp_loc (ids : List Nat) (h : Heap) (j : Nat) :
    (pickUp ids h j).loc = (h j).loc := by
  rw [pickUp_apply]
  by_cases hj : j ∈ ids <;> simp [hj, hideStone_loc]

theorem pickUp_nil (h : Heap) : pickUp [] h = h := rfl

theorem putDown_apply (p : Piece) (dest : Coord) (hnd : p.stoneIds.Nodup)
    (h : Heap) (j : Nat) :
    putDown p dest h j
      = if j ∈ p.stoneIds then
          revealMove (dest.1 - p.center.1, dest.2 - p.center.2) (h j)
        else h j :=
  foldl_update_apply_of_nodup _ p.stoneIds hnd h j

theorem removeLoc_sublist (h : Heap) (l : List Nat) (t : Coord) :
    (removeLoc h l t).2.Sublist l := by
  induction l with
  | nil => simp [removeLoc]
  | cons i rest ih =>
    simp only [removeLoc]
    by_cases hc : (h i).loc = t
    · simp only [if_pos hc]
      exact List.Sublist.cons i (List.Sublist.refl rest)
    · simp only [if_neg hc]
      exact List.Sublist.cons₂ i ih

theorem not_mem_removeLoc (h : Heap) {l : List Nat} {t : Coord} {j : Nat}
    (hj : j ∉ l) : j ∉ (removeLoc h l t).2 :=
  fun hmem => hj ((removeLoc_sublist h l t).subset hmem)

theorem mem_removeLoc_of_loc_ne (h : Heap) {l : List Nat} {t : Coord} {j : Nat}
    (hj : j ∈ l) (hne : (h j).loc ≠ t) : j ∈ (removeLoc h l t).2 := by
  induction l with
  | nil => cases hj
  | cons i rest ih =>
    simp only [removeLoc]
    by_cases hc : (h i).loc = t
    · simp only [hc, if_pos rfl]
      rcases List.mem_cons.mp hj with hji | hjr
      · exact absurd (hji ▸ hc) hne
      · exact hjr
    · simp only [if_neg hc]
      rcases List.mem_cons.mp hj with hji | hjr
      · exact hji ▸ List.mem_cons_self _ _
      · exact List.mem_cons_of_mem _ (ih hjr)

theorem not_mem_removeLoc_self (h : Heap) {l : List Nat} {j : Nat}
    (hnd : l.Nodup) (huniq : ∀ k ∈ l, (h k).loc = (h j).loc → k = j) :
    j ∉ (removeLoc h l (h j).loc).2 := by
  induction l with
  | nil => simp [removeLoc]
  | cons i rest ih =>
    obtain ⟨hir, hrest⟩ := List.nodup_cons.mp hnd
    simp only [removeLoc]
    by_cases hc : (h i).loc = (h j).loc
    · have hij : i = j := huniq i (List.mem_cons_self _ _) hc
      subst hij
      simpa [hc] using hir
    · have hji : j ≠ i := fun e => hc (by rw [e])
      simp only [if_neg hc]
      intro hmem
      rcases List.mem_cons.mp hmem with hji2 | hjr
      · exact hji hji2
      · exact ih hrest (fun k hk => huniq k (List.mem_cons_of_mem _ hk)) hjr

theorem removeLoc_eq (h : Heap) (l : List Nat) (t : Coord) :
    removeLoc h l t
      = (l.any (fun i => decide ((h i).loc = t)),
          l.eraseP (fun i => decide ((h i).loc = t))) := by
  induction l with
  | nil => simp [removeLoc]
  | cons i rest ih =>
    simp only [removeLoc, List.any_cons, List.eraseP_cons]
    by_cases hc : (h i).loc = t
    · simp [hc]
    · simp [hc, ih]

theorem getStoneAt_some (h : Heap) {ids : List Nat} {t : Coord} {i : Nat}
    (he : getStoneAt h ids t = some i) : i ∈ ids ∧ (h i).loc = t := by
  rw [getStoneAt] at he
  have hp := List.find?_some he
  simp only [decide_eq_true_eq] at hp
  exact ⟨List.mem_of_find?_eq_some he, hp⟩

theorem getStoneAt_eq_some (h : Heap) {ids : List Nat} {t : Coord} {i : Nat}
    (hmem : i ∈ ids) (hloc : (h i).loc = t)
    (huniq : ∀ k ∈ ids, (h k).loc = t → k = i) :
    getStoneAt h ids t = some i := by
  cases he : getStoneAt h ids t with
  | none =>
    rw [getStoneAt, List.find?_eq_none] at he
    exact absurd (by simp [hloc]) (he i hmem)
  | some k =>
    obtain ⟨hk, hkl⟩ := getStoneAt_some h he
    rw [huniq k hk hkl]

theorem mem_footprintCoords {q c : Coord} :
    q ∈ footprintCoords c ↔
      c.1 - 1 ≤ q.1 ∧ q.1 ≤ c.1 + 1 ∧ c.2 - 1 ≤ q.2 ∧ q.2 ≤ c.2 + 1 := by
  obtain ⟨q1, q2⟩ := q
  obtain ⟨c1, c2⟩ := c
  simp only [footprintCoords, List.mem_cons, List.not_mem_nil, or_false,
    Prod.mk.injEq]
  omega

theorem footprintCoords_nodup (c : Coord) : (footprintCoords c).Nodup := by
  obtain ⟨c1, c2⟩ := c
  simp only [footprintCoords, List.nodup_cons, List.mem_cons,
    List.not_mem_nil, or_false, Prod.mk.injEq, List.nodup_nil, and_true,
    not_or]
  norm_num
  omega

theorem mem_stonesAboutCenter {h : Heap} {ids : List Nat} {c : Coord} {i : Nat} :
    i ∈ stonesAboutCenter h ids c
      ↔ ∃ q ∈ footprintCoords c, getStoneAt h ids q = some i :=
  List.mem_filterMap

theorem stonesAboutCenter_mem_ids {h : Heap} {ids : List Nat} {c : Coord}
    {i : Nat} (hi : i ∈ stonesAboutCenter h ids c) : i ∈ ids := by
  obtain ⟨q, _, hq⟩ := mem_stonesAboutCenter.mp hi
  exact (getStoneAt_some h hq).1

theorem stonesAboutCenter_loc {h : Heap} {ids : List Nat} {c : Coord} {i : Nat}
    (hi : i ∈ stonesAboutCenter h ids c) :
    (h i).loc ∈ footprintCoords c := by
  obtain ⟨q, hqm, hq⟩ := mem_stonesAboutCenter.mp hi
  exact (getStoneAt_some h hq).2 ▸ hqm

theorem mem_stonesAboutCenter_of_loc {h : Heap} {ids : List Nat} {c : Coord}
    {i : Nat} (hmem : i ∈ ids) (hloc : (h i).loc ∈ footprintCoords c)
    (huniq : ∀ k ∈ ids, (h k).loc = (h i).loc → k = i) :
    i ∈ stonesAboutCenter h ids c :=
  mem_stonesAboutCenter.mpr
    ⟨(h i).loc, hloc, getStoneAt_eq_some h hmem rfl huniq⟩

/-- The locations of the footprint stones form a sublist of the scanned
coordinates: `get_stones_about_center` yields at most one stone per footprint
cell, each sitting on the cell it was found at. -/
theorem locs_filterMap_sublist (h : Heap) (ids : List Nat) (qs : List Coord) :
    ((qs.filterMap (getStoneAt h ids)).map (fun i => (h i).loc)).Sublist qs := by
  induction qs with
  | nil => simp
  | cons q rest ih =>
    cases he : getStoneAt h ids q with
    | none => simpa [List.filterMap_cons, he] using List.Sublist.cons q ih
    | some i =>
      have hloc := (getStoneAt_some h he).2
      simpa [List.filterMap_cons, he, hloc] using List.Sublist.cons₂ q ih

theorem stonesAboutCenter_locs_nodup (h : Heap) (ids : List Nat) (c : Coord) :
    ((stonesAboutCenter h ids c).map (fun i => (h i).loc)).Nodup :=
  ((locs_filterMap_sublist h ids (footprintCoords c)).nodup
    (footprintCoords_nodup c))

theorem stonesAboutCenter_nodup (h : Heap) (ids : List Nat) (c : Coord) :
    (stonesAboutCenter h ids c).Nodup :=
  List.Nodup.of_map _ (stonesAboutCenter_locs_nodup h ids c)

/-! ### Generic facts about the removal loops of `capture` and `move_piece` -/

theorem foldl_step_sublist {step : List Nat → Nat → List Nat}
    (hsub : ∀ a i, (step a i).Sublist a) (C : List Nat) :
    ∀ acc : List Nat, (C.foldl step acc).Sublist acc := by
  induction C with
  | nil => exact fun acc => List.Sublist.refl acc
  | cons i rest ih =>
    exact fun acc => (ih (step acc i)).trans (hsub acc i)

theorem foldl_step_not_mem {step : List Nat → Nat → List Nat}
    (hsub : ∀ a i, (step a i).Sublist a) (C : List Nat) {acc : List Nat}
    {j : Nat} (hj : j ∉ acc) : j ∉ C.foldl step acc :=
  fun hmem => hj ((foldl_step_sublist hsub C acc).subset hmem)

theorem foldl_step_kept {step : List Nat → Nat → List Nat} {j : Nat}
    (C : List Nat) :
    ∀ acc : List Nat, (∀ a i, j ∈ a → i ∈ C → j ∈ step a i) → j ∈ acc →
      j ∈ C.foldl step acc := by
  induction C with
  | nil => exact fun acc _ hj => hj
  | cons i rest ih =>
    intro acc hkeep hj
    exact ih (step acc i)
      (fun a k ha hk => hkeep a k ha (List.mem_cons_of_mem _ hk))
      (hkeep acc i hj (List.mem_cons_self _ _))

theorem foldl_step_removed {step : List Nat → Nat → List Nat} {j : Nat}
    {ids0 : List Nat} (hsub : ∀ a i, (step a i).Sublist a)
    (hself : ∀ a, a.Sublist ids0 → j ∉ step a j) (C : List Nat) :
    ∀ acc : List Nat, acc.Sublist ids0 → j ∈ C → j ∉ C.foldl step acc := by
  induction C with
  | nil => intro acc _ hj; cases hj
  | cons i rest ih =>
    intro acc hacc hj
    by_cases hij : i = j
    · subst hij
      exact foldl_step_not_mem hsub rest (hself acc hacc)
    · rcases List.mem_cons.mp hj with hji | hjr
      · exact absurd hji.symm hij
      · exact ih (step acc i) ((hsub acc i).trans hacc) hjr

/-! ### Direction derivation -/

theorem offset_eq_zero_iff {q c : Coord} :
    ((q.1 - c.1, q.2 - c.2) : Coord) = ((0 : Int), (0 : Int)) ↔ q = c := by
  obtain ⟨q1, q2⟩ := q
  obtain ⟨c1, c2⟩ := c
  simp only [Prod.mk.injEq]
  omega

theorem zero_not_mem_offsets_erase (c : Coord) :
    ∀ locs : List Coord, locs.Nodup →
      ((0 : Int), (0 : Int)) ∉
        (locs.map (fun q => (q.1 - c.1, q.2 - c.2))).erase ((0 : Int), (0 : Int))
  | [], _ => by simp
  | q :: rest, hnd => by
    obtain ⟨hqr, hrest⟩ := List.nodup_cons.mp hnd
    simp only [List.map_cons, List.erase_cons]
    by_cases hq : q = c
    · rw [if_pos (by simp [hq])]
      intro hmem
      obtain ⟨y, hy, hye⟩ := List.mem_map.mp hmem
      rw [offset_eq_zero_iff.mp hye] at hy
      exact hqr (hq ▸ hy)
    · rw [if_neg (by
        simp only [beq_iff_eq]
        exact fun hh => hq (offset_eq_zero_iff.mp hh))]
      intro hmem
      rcases List.mem_cons.mp hmem with hh | ht
      · exact hq (offset_eq_zero_iff.mp hh.symm)
      · exact zero_not_mem_offsets_erase c rest hrest ht

theorem determineDirections_eq (h : Heap) (c : Coord) (ids : List Nat) :
    determineDirections h c ids
      = ((ids.map (fun i => (h i).loc)).map
          (fun q => (q.1 - c.1, q.2 - c.2))).erase ((0 : Int), (0 : Int)) := by
  rw [determineDirections, List.map_map]
  rfl

/-- A piece extracted from the board (or assembled by the ring scan) never
lists `(0, 0)` among its directions: its stones occupy pairwise distinct
footprint cells, so the center offset occurs at most once and
`__determine_directions` removes it. -/
theorem zero_not_mem_createPiece_directions (h : Heap) (ids : List Nat)
    (c : Coord) :
    ((0 : Int), (0 : Int)) ∉ (createPiece h ids c).directions := by
  show ((0 : Int), (0 : Int)) ∉ determineDirections h c (stonesAboutCenter h ids c)
  rw [determineDirections_eq]
  exact zero_not_mem_offsets_erase c _ (stonesAboutCenter_locs_nodup h ids c)

/-! ### Maximum distance -/

theorem determineMaxDistance_foldl (h : Heap) (c : Coord) :
    ∀ (l : List Nat) (a : Option Nat),
      l.foldl (fun acc i => if (h i).loc = c then none else acc) a
        = if l.any (fun i => decide ((h i).loc = c)) then none else a := by
  intro l
  induction l with
  | nil => intro a; simp
  | cons i rest ih =>
    intro a
    simp only [List.foldl_cons, List.any_cons, ih]
    by_cases hc : (h i).loc = c <;> simp [hc, ite_self]

theorem determineMaxDistance_eq (h : Heap) (c : Coord) (ids : List Nat) :
    determineMaxDistance h c ids
      = if ids.any (fun i => decide ((h i).loc = c)) then none else some 3 :=
  determineMaxDistance_foldl h c ids (some 3)

/-! ### The path-trace walk -/

theorem stonesAboutCenter_nil (h : Heap) (c : Coord) :
    stonesAboutCenter h [] c = [] := rfl

theorem pathLoop_on_ray (h : Heap) (ids : List Nat) (dir : Coord) :
    ∀ (k : Nat) (c : Coord),
      (pathLoop h ids (c.1 + (k : Int) * dir.1, c.2 + (k : Int) * dir.2) dir
        (k + 1) c).isSome = true := by
  intro k
  induction k with
  | zero =>
    intro c
    have hc : c = ((c.1 + ((0 : Nat) : Int) * dir.1,
        c.2 + ((0 : Nat) : Int) * dir.2) : Coord) := by
      simp
    rw [pathLoop, if_pos hc]
    simp
  | succ k ih =>
    intro c
    rw [pathLoop]
    by_cases hc : c = ((c.1 + ((k + 1 : Nat) : Int) * dir.1,
        c.2 + ((k + 1 : Nat) : Int) * dir.2) : Coord)
    · rw [if_pos hc]; simp
    · rw [if_neg hc]
      by_cases hob : (!isEmptyIds h (stonesAboutCenter h ids c)) = true
      · rw [if_pos hob]; simp
      · rw [if_neg hob]
        have harith :
            ((c.1 + ((k + 1 : Nat) : Int) * dir.1,
              c.2 + ((k + 1 : Nat) : Int) * dir.2) : Coord)
              = ((c.1 + dir.1) + (k : Int) * dir.1,
                  (c.2 + dir.2) + (k : Int) * dir.2) := by
          simp only [Prod.mk.injEq]
          push_cast
          constructor <;> ring
        rw [harith]
        exact ih (c.1 + dir.1, c.2 + dir.2)

theorem pathLoop_hE_none :
    ∀ (n : Nat) (c : Coord), c.2 = 2 →
      pathLoop hE [] ((2 : Int), (3 : Int)) ((1 : Int), (0 : Int)) n c = none := by
  intro n
  induction n with
  | zero =>
    intro c hc
    rw [pathLoop, if_neg]
    intro he
    rw [he] at hc
    norm_num at hc
  | succ n ih =>
    intro c hc
    rw [pathLoop, if_neg, if_neg]
    · exact ih (c.1 + 1, c.2 + 0) (by simpa using hc)
    · simp [stonesAboutCenter_nil, isEmptyIds]
    · intro he
      rw [he] at hc
      norm_num at hc

/-! ### Round-trip of pick up / put down at the own center -/

theorem revealMove_zero (s : Stone) :
    revealMove ((0 : Int), (0 : Int)) s = { s with hidden := false } := by
  simp [revealMove]

theorem putDown_center (p : Piece) (h : Heap) :
    putDown p p.center h
      = p.stoneIds.foldl
          (fun h i => Function.update h i { h i with hidden := false }) h := by
  simp only [putDown, sub_self]
  congr 1
  funext hh i
  rw [revealMove_zero]

theorem mkPiece_maxDistance (h : Heap) (c : Coord) (ids : List Nat) :
    (mkPiece h c ids).maxDistance
      = if ids.any (fun i => decide ((h i).loc = c)) then none else some 3 :=
  determineMaxDistance_eq h c ids

/-! ### Capture and boundary removal -/

theorem capture_sublist (h : Heap) (ids : List Nat) (c : Coord) :
    (capture h ids c).Sublist ids := by
  rw [capture]
  refine foldl_step_sublist (fun a i => ?_) _ _
  by_cases hh : (h i).hidden = true
  · rw [if_pos hh]
  · rw [if_neg hh]
    exact removeLoc_sublist h a (h i).loc

theorem capture_keeps (h : Heap) (ids : List Nat) (c : Coord) {j : Nat}
    (hj : j ∈ ids)
    (hkeep : ∀ i ∈ stonesAboutCenter h ids c,
      (h i).hidden = false → (h i).loc ≠ (h j).loc) :
    j ∈ capture h ids c := by
  rw [capture]
  refine foldl_step_kept _ ids (fun a i ha hiC => ?_) hj
  by_cases hh : (h i).hidden = true
  · rwa [if_pos hh]
  · rw [if_neg hh]
    have hh2 : (h i).hidden = false := by rwa [Bool.not_eq_true] at hh
    exact mem_removeLoc_of_loc_ne h ha (fun he => hkeep i hiC hh2 he.symm)

theorem capture_removes (h : Heap) (ids : List Nat) (c : Coord) {j : Nat}
    (hnd : ids.Nodup)
    (huniq : ∀ a ∈ ids, ∀ b ∈ ids, (h a).loc = (h b).loc → a = b)
    (hj : j ∈ ids) (hhid : (h j).hidden = false)
    (hfp : (h j).loc ∈ footprintCoords c) :
    j ∉ capture h ids c := by
  have hjC : j ∈ stonesAboutCenter h ids c :=
    mem_stonesAboutCenter_of_loc hj hfp (fun k hk hkl => huniq k hk j hj hkl)
  rw [capture]
  refine foldl_step_removed (fun a i => ?_) (fun a hasub => ?_) _ ids
    (List.Sublist.refl ids) hjC
  · by_cases hh : (h i).hidden = true
    · rw [if_pos hh]
    · rw [if_neg hh]
      exact removeLoc_sublist h a (h i).loc
  · rw [if_neg (by simp [hhid])]
    exact not_mem_removeLoc_self h (List.Nodup.sublist hasub hnd)
      (fun k hk hkl => huniq k (hasub.subset hk) j hj hkl)

theorem boundaryRemove_sublist (h2 : Heap) (pieceIds ids : List Nat) :
    (boundaryRemove h2 pieceIds ids).Sublist ids := by
  rw [boundaryRemove]
  refine foldl_step_sublist (fun a i => ?_) _ _
  by_cases hc : (h2 i).row = 20 ∨ (h2 i).col = 20 ∨ (h2 i).row = 1 ∨ (h2 i).col = 1
  · rw [if_pos hc]
    exact removeLoc_sublist h2 a (h2 i).loc
  · rw [if_neg hc]

theorem boundaryRemove_removes (h2 : Heap) {pieceIds ids ids0 : List Nat}
    {j : Nat} (hnd0 : ids0.Nodup)
    (huniq : ∀ k ∈ ids0, (h2 k).loc = (h2 j).loc → k = j)
    (hj : j ∈ pieceIds)
    (hcond : (h2 j).row = 20 ∨ (h2 j).col = 20 ∨ (h2 j).row = 1 ∨ (h2 j).col = 1)
    (hids : ids.Sublist ids0) :
    j ∉ boundaryRemove h2 pieceIds ids := by
  rw [boundaryRemove]
  refine foldl_step_removed (fun a i => ?_) (fun a hasub => ?_) _ ids hids hj
  · by_cases hc : (h2 i).row = 20 ∨ (h2 i).col = 20 ∨ (h2 i).row = 1 ∨ (h2 i).col = 1
    · rw [if_pos hc]
      exact removeLoc_sublist h2 a (h2 i).loc
    · rw [if_neg hc]
  · rw [if_pos hcond]
    exact not_mem_removeLoc_self h2 (List.Nodup.sublist hasub hnd0)
      (fun k hk hkl => huniq k (hasub.subset hk) hkl)

/-! ### Preservation of the board invariant by `move_piece` -/

theorem movePiece_aux_good (h : Heap) (ids P : List Nat) (o d : Coord)
    (p : Piece) (hpS : p.stoneIds = P) (hpC : p.center = o)
    (hPd : P = stonesAboutCenter h ids o)
    (hnd : ids.Nodup)
    (hunh : ∀ i ∈ ids, (h i).hidden = false)
    (huloc : ∀ a ∈ ids, ∀ b ∈ ids, a ≠ b → (h a).loc ≠ (h b).loc)
    (hbnd : ∀ i ∈ ids, 2 ≤ (h i).row ∧ (h i).row ≤ 19 ∧
      2 ≤ (h i).col ∧ (h i).col ≤ 19)
    (hd1 : 2 ≤ d.1) (hd2 : d.1 ≤ 19) (hd3 : 2 ≤ d.2) (hd4 : d.2 ≤ 19) :
    GoodState ⟨putDown p d (pickUp P h),
      boundaryRemove (putDown p d (pickUp P h)) P
        (capture (pickUp P h) ids d)⟩ := by
  have hPids : ∀ i ∈ P, i ∈ ids := by
    rw [hPd]
    exact fun i hi => stonesAboutCenter_mem_ids hi
  have hPloc : ∀ i ∈ P, (h i).loc ∈ footprintCoords o := by
    rw [hPd]
    exact fun i hi => stonesAboutCenter_loc hi
  have hPnd : P.Nodup := by
    rw [hPd]
    exact stonesAboutCenter_nodup h ids o
  have huniq : ∀ a ∈ ids, ∀ b ∈ ids, (h a).loc = (h b).loc → a = b := by
    intro a ha b hb hl
    by_contra hne
    exact huloc a ha b hb hne hl
  have h1loc : ∀ j, (pickUp P h j).loc = (h j).loc := pickUp_loc P h
  have h1mem : ∀ j ∈ P, pickUp P h j = hideStone (h j) := by
    intro j hj
    rw [pickUp_apply, if_pos hj]
  have h1not : ∀ j, j ∉ P → pickUp P h j = h j := by
    intro j hj
    rw [pickUp_apply, if_neg hj]
  have huniq1 : ∀ a ∈ ids, ∀ b ∈ ids,
      (pickUp P h a).loc = (pickUp P h b).loc → a = b := by
    intro a ha b hb hl
    rw [h1loc, h1loc] at hl
    exact huniq a ha b hb hl
  have hsub1 : (capture (pickUp P h) ids d).Sublist ids := capture_sublist _ ids d
  have hnd1 : (capture (pickUp P h) ids d).Nodup := List.Nodup.sublist hsub1 hnd
  have hPin1 : ∀ j ∈ P, j ∈ capture (pickUp P h) ids d := by
    intro j hj
    refine capture_keeps _ ids d (hPids j hj) ?_
    intro i hiC hinh he
    have hiid : i ∈ ids := stonesAboutCenter_mem_ids hiC
    have hij : i = j := huniq1 i hiid j (hPids j hj) he
    subst hij
    rw [h1mem i hj] at hinh
    exact absurd hinh (by simp [hideStone])
  have hcapfp : ∀ j ∈ capture (pickUp P h) ids d, j ∉ P →
      (h j).loc ∉ footprintCoords d := by
    intro j hj1 hjP hfp
    have hj : j ∈ ids := hsub1.subset hj1
    refine capture_removes _ ids d hnd huniq1 hj ?_ ?_ hj1
    · rw [h1not j hjP]
      exact hunh j hj
    · rw [h1loc]
      exact hfp
  have h2mem : ∀ j ∈ P,
      putDown p d (pickUp P h) j
        = ⟨(h j).row + (d.1 - o.1), (h j).col + (d.2 - o.2),
            (h j).owner, false⟩ := by
    intro j hj
    rw [putDown_apply p d (hpS ▸ hPnd), hpS, hpC, if_pos hj, h1mem j hj]
    rfl
  have h2not : ∀ j, j ∉ P → putDown p d (pickUp P h) j = h j := by
    intro j hj
    rw [putDown_apply p d (hpS ▸ hPnd), hpS, if_neg hj, h1not j hj]
  have h2bnd : ∀ j ∈ P,
      1 ≤ (h j).row + (d.1 - o.1) ∧ (h j).row + (d.1 - o.1) ≤ 20 ∧
      1 ≤ (h j).col + (d.2 - o.2) ∧ (h j).col + (d.2 - o.2) ≤ 20 := by
    intro j hj
    have hb := mem_footprintCoords.mp (hPloc j hj)
    have hlr : (h j).loc.1 = (h j).row := rfl
    have hlc : (h j).loc.2 = (h j).col := rfl
    rw [hlr, hlc] at hb
    omega
  have h2fp : ∀ j ∈ P,
      (putDown p d (pickUp P h) j).loc ∈ footprintCoords d := by
    intro j hj
    rw [h2mem j hj]
    refine mem_footprintCoords.mpr ?_
    have hb := mem_footprintCoords.mp (hPloc j hj)
    have hlr : (h j).loc.1 = (h j).row := rfl
    have hlc : (h j).loc.2 = (h j).col := rfl
    rw [hlr, hlc] at hb
    simp only [Stone.loc]
    omega
  have huloc2 : ∀ a ∈ capture (pickUp P h) ids d,
      ∀ b ∈ capture (pickUp P h) ids d, a ≠ b →
      (putDown p d (pickUp P h) a).loc ≠ (putDown p d (pickUp P h) b).loc := by
    intro a ha b hb hne he
    have haid : a ∈ ids := hsub1.subset ha
    have hbid : b ∈ ids := hsub1.subset hb
    by_cases haP : a ∈ P <;> by_cases hbP : b ∈ P
    · rw [h2mem a haP, h2mem b hbP] at he
      simp only [Stone.loc, Prod.mk.injEq] at he
      apply huloc a haid b hbid hne
      have hla : (h a).loc = ((h a).row, (h a).col) := rfl
      have hlb : (h b).loc = ((h b).row, (h b).col) := rfl
      rw [hla, hlb, Prod.mk.injEq]
      omega
    · have hfa : (putDown p d (pickUp P h) a).loc ∈ footprintCoords d :=
        h2fp a haP
      rw [he, h2not b hbP] at hfa
      exact hcapfp b hb hbP hfa
    · have hfb : (putDown p d (pickUp P h) b).loc ∈ footprintCoords d :=
        h2fp b hbP
      rw [← he, h2not a haP] at hfb
      exact hcapfp a ha haP hfb
    · rw [h2not a haP, h2not b hbP] at he
      exact huloc a haid b hbid hne he
  have hbsub : (boundaryRemove (putDown p d (pickUp P h)) P
      (capture (pickUp P h) ids d)).Sublist (capture (pickUp P h) ids d) :=
    boundaryRemove_sublist _ _ _
  have hbrem : ∀ j ∈ P,
      ((putDown p d (pickUp P h) j).row = 20 ∨
        (putDown p d (pickUp P h) j).col = 20 ∨
        (putDown p d (pickUp P h) j).row = 1 ∨
        (putDown p d (pickUp P h) j).col = 1) →
      j ∉ boundaryRemove (putDown p d (pickUp P h)) P
        (capture (pickUp P h) ids d) := by
    intro j hj hcond
    refine boundaryRemove_removes _ hnd1 ?_ hj hcond (List.Sublist.refl _)
    intro k hk hkl
    by_contra hkj
    exact huloc2 k hk j (hPin1 j hj) hkj hkl
  refine ⟨List.Nodup.sublist hbsub hnd1, ?_, ?_, ?_⟩
  · intro i hi
    by_cases hiP : i ∈ P
    · show (putDown p d (pickUp P h) i).hidden = false
      rw [h2mem i hiP]
    · show (putDown p d (pickUp P h) i).hidden = false
      rw [h2not i hiP]
      exact hunh i (hsub1.subset (hbsub.subset hi))
  · intro a ha b hb hne
    exact huloc2 a (hbsub.subset ha) b (hbsub.subset hb) hne
  · intro i hi
    by_cases hiP : i ∈ P
    · have hb2 := h2bnd i hiP
      have hcond : ¬ ((putDown p d (pickUp P h) i).row = 20 ∨
          (putDown p d (pickUp P h) i).col = 20 ∨
          (putDown p d (pickUp P h) i).row = 1 ∨
          (putDown p d (pickUp P h) i).col = 1) :=
        fun hc => hbrem i hiP hc hi
      rw [h2mem i hiP] at hcond
      show 2 ≤ (putDown p d (pickUp P h) i).row ∧
          (putDown p d (pickUp P h) i).row ≤ 19 ∧
          2 ≤ (putDown p d (pickUp P h) i).col ∧
          (putDown p d (pickUp P h) i).col ≤ 19
      rw [h2mem i hiP]
      dsimp only at hcond ⊢
      omega
    · show 2 ≤ (putDown p d (pickUp P h) i).row ∧
          (putDown p d (pickUp P h) i).row ≤ 19 ∧
          2 ≤ (putDown p d (pickUp P h) i).col ∧
          (putDown p d (pickUp P h) i).col ≤ 19
      rw [h2not i hiP]
      exact hbnd i (hsub1.subset (hbsub.subset hi))

theorem gstep_preserves_good {st : BState} {od : Coord × Coord}
    (hg : GoodState st) (hd : inPlay od.2) : GoodState (gstep st od) := by
  obtain ⟨hnd, hunh, huloc, hbnd⟩ := hg
  obtain ⟨hd1, hd2, hd3, hd4⟩ := hd
  obtain ⟨h, ids⟩ := st
  exact movePiece_aux_good h ids (stonesAboutCenter h ids od.1) od.1 od.2
    (createPiece h ids od.1) rfl rfl rfl hnd hunh huloc hbnd hd1 hd2 hd3 hd4

theorem applySeq_good : ∀ (ms : List (Coord × Coord)) (st : BState),
    GoodState st → (∀ m ∈ ms, inPlay m.2) → GoodState (applySeq st ms) := by
  intro ms
  induction ms with
  | nil => exact fun st hg _ => hg
  | cons m rest ih =>
    intro st hg hms
    exact ih (gstep st m)
      (gstep_preserves_good hg (hms m (List.mem_cons_self _ _)))
      (fun k hk => hms k (List.mem_cons_of_mem _ hk))

set_option maxRecDepth 100000 in
theorem initState_good : GoodState initState := by
  unfold GoodState
  decide

/-! ## Claim theorems -/

/-- **C1** (code bug exhibit).  `Move.is_legal` observably mutates board
state: on the initial board, BLACK's zero-direction-list piece at (7,3) moved
to (8,3) fails the first validation gate, `is_legal` returns `False`, and the
piece's stone (identity 80, the BLACK stone at (7,3), un-hidden beforehand)
is left hidden at its place — the early `return False` skips the
`put_down` that would have restored it.  A second call on the resulting state
still returns `False`, so the result is stable, but the hidden flag changed. -/
theorem c1_is_legal_mutates_exhibit :
    (moveIsLegal 1 initState c1move).map Prod.fst = some false ∧
    (moveIsLegal 1 initState c1move).map (fun r => (r.2 80).hidden) = some true ∧
    (moveIsLegal 1 initState c1move).map (fun r => (r.2 80).loc)
      = some ((7 : Int), (3 : Int)) ∧
    (initHeap 80).hidden = false ∧
    (initHeap 80).loc = ((7 : Int), (3 : Int)) ∧
    (moveIsLegal 1 ⟨pickUp c1move.piece.stoneIds initHeap, initIds⟩ c1move).map
        Prod.fst = some false := by
  decide

/-- **C2** (code bug exhibit).  `Piece.is_legal` accepts a footprint whose
sole stone sits at the exact center: the piece extracted at (7,3) from the
initial board has exactly one stone, located at its center (7,3), yet
`is_legal("BLACK")` returns `True` — the source compares the bound method
`get_location` with the center tuple, so the single-center-stone test never
fires, contradicting the function's own docstring and the unit test
`test_center_stone_invalid`. -/
theorem c2_sole_center_stone_accepted_exhibit :
    (createPiece initHeap initIds ((7 : Int), (3 : Int))).stoneIds.map
        (fun i => (initHeap i).loc) = [((7 : Int), (3 : Int))] ∧
    pieceIsLegal initHeap (createPiece initHeap initIds ((7 : Int), (3 : Int)))
        Player.black = true := by
  decide

/-- **C3** (counterexample).  `Board.is_path_clear` is not total: on a
stoneless board, walking from origin (2,2) towards destination (2,3) with
direction (1,0) — a destination the walk can never land on — no amount of
fuel makes the embedded `while` loop reach its exit condition, i.e. the
source loop runs forever. -/
theorem c3_path_trace_not_total_counterexample :
    ¬ isPathClearTerminates hE [] (mkPiece hE ((2 : Int), (2 : Int)) [])
      ((2 : Int), (2 : Int)) ((2 : Int), (3 : Int)) ((1 : Int), (0 : Int)) := by
  rintro ⟨fuel, hfuel⟩
  simp only [isPathClearFuel] at hfuel
  rw [show pickUp (mkPiece hE ((2 : Int), (2 : Int)) ([] : List Nat)).stoneIds hE
      = hE from rfl] at hfuel
  rw [pathLoop_hE_none fuel ((2 : Int), (2 : Int)) rfl] at hfuel
  simp at hfuel

/-- **C3** (amended).  The path-trace walk does terminate whenever the
destination lies on the ray `origin + k·direction` — which covers every call
`Move.is_legal` makes, since there the direction is the sign pair of the
displacement: fuel `k + 1` always suffices, for every board, piece and
direction.  (`capture` and `has_ring` are bounded loops and are embedded as
structurally terminating functions.) -/
theorem c3_path_trace_total_on_ray :
    ∀ (h : Heap) (ids : List Nat) (p : Piece) (origin dir : Coord) (k : Nat),
      (isPathClearFuel (k + 1) h ids p origin
        (origin.1 + (k : Int) * dir.1, origin.2 + (k : Int) * dir.2) dir).isSome
        = true := by
  intro h ids p origin dir k
  have hl := pathLoop_on_ray (pickUp p.stoneIds h) ids dir k origin
  rw [Option.isSome_iff_exists] at hl
  obtain ⟨b, hb⟩ := hl
  simp [isPathClearFuel, hb]

/-- **C4** (counterexample).  One `move_piece` call from the initial layout
violates the invariant: moving the BLACK piece extracted at (3,3) to the
boundary center (1,3) translates its stone from (2,3) to (0,3); the
out-of-bounds sweep removes only stones with a coordinate equal to 1 or 20,
so an un-hidden stone survives at row 0 — a row in {0,21}. -/
theorem c4_invariant_counterexample :
    ((applySeq initState [(((3 : Int), (3 : Int)), ((1 : Int), (3 : Int)))]).ids.any
      (fun i =>
        decide (((applySeq initState
          [(((3 : Int), (3 : Int)), ((1 : Int), (3 : Int)))]).heap i).row = 0) &&
        !((applySeq initState
          [(((3 : Int), (3 : Int)), ((1 : Int), (3 : Int)))]).heap i).hidden)) = true := by
  decide

/-- **C4** (amended).  For every sequence of applied moves whose destination
centers lie in the playable 2..19 square (as `make_move`'s input validation
guarantees; origins are unrestricted), the board state reached from the
initial layout satisfies the invariant: no two non-suppressed stones occupy
the same cell, and no stone has a row or column in {0,21}. -/
theorem c4_amended_invariant :
    ∀ ms : List (Coord × Coord), (∀ m ∈ ms, inPlay m.2) →
      (∀ a ∈ (applySeq initState ms).ids, ∀ b ∈ (applySeq initState ms).ids,
        a ≠ b →
        ¬(((applySeq initState ms).heap a).hidden = false ∧
          ((applySeq initState ms).heap b).hidden = false ∧
          ((applySeq initState ms).heap a).loc
            = ((applySeq initState ms).heap b).loc)) ∧
      (∀ i ∈ (applySeq initState ms).ids,
        ((applySeq initState ms).heap i).row ≠ 0 ∧
        ((applySeq initState ms).heap i).row ≠ 21 ∧
        ((applySeq initState ms).heap i).col ≠ 0 ∧
        ((applySeq initState ms).heap i).col ≠ 21) := by
  intro ms hms
  obtain ⟨hnd, hunh, huloc, hbnd⟩ := applySeq_good ms initState initState_good hms
  constructor
  · intro a ha b hb hne hcontra
    exact huloc a ha b hb hne hcontra.2.2
  · intro i hi
    have := hbnd i hi
    omega

/-- **C4** (witness).  The amended invariant applied to the one-move in-play
sequence `c4moves`. -/
theorem c4_amended_invariant_witness :
    (∀ m ∈ c4moves, inPlay m.2) ∧
    ((∀ a ∈ (applySeq initState c4moves).ids,
        ∀ b ∈ (applySeq initState c4moves).ids, a ≠ b →
        ¬(((applySeq initState c4moves).heap a).hidden = false ∧
          ((applySeq initState c4moves).heap b).hidden = false ∧
          ((applySeq initState c4moves).heap a).loc
            = ((applySeq initState c4moves).heap b).loc)) ∧
      (∀ i ∈ (applySeq initState c4moves).ids,
        ((applySeq initState c4moves).heap i).row ≠ 0 ∧
        ((applySeq initState c4moves).heap i).row ≠ 21 ∧
        ((applySeq initState c4moves).heap i).col ≠ 0 ∧
        ((applySeq initState c4moves).heap i).col ≠ 21)) :=
  ⟨by decide, c4_amended_invariant c4moves (by decide)⟩

/-- **C5** (counterexample).  `StoneCollection.remove` does not leave a
suppressed-only stone in place: on a collection holding one hidden stone at
(5,5), `remove((5,5))` removes it and returns `True` — the hidden flag is
never consulted. -/
theorem c5_remove_ignores_hidden_counterexample :
    removeLoc hC5 [0] ((5 : Int), (5 : Int)) = (true, []) ∧
    (hC5 0).hidden = true ∧
    (hC5 0).loc = ((5 : Int), (5 : Int)) := by
  decide

/-- **C5** (amended).  `StoneCollection.remove(coord)` removes the first
stone located at `coord` — hidden or not — and returns true exactly when some
stone (of either hidden state) was at `coord`. -/
theorem c5_remove_first_match :
    ∀ (h : Heap) (ids : List Nat) (t : Coord),
      removeLoc h ids t
        = (ids.any (fun i => decide ((h i).loc = t)),
            ids.eraseP (fun i => decide ((h i).loc = t))) :=
  removeLoc_eq

/-- **C6** (counterexample).  Constructing a `Piece` from a malformed center
signals nothing: at the out-of-grid center (25,25) the constructor silently
produces an ordinary stoneless piece (with the default maximum distance 3),
and its legality query degrades to an ordinary `False` — no distinct domain
error exists anywhere on this path. -/
theorem c6_no_domain_error_counterexample :
    (createPiece initHeap initIds ((25 : Int), (25 : Int))).stoneIds = [] ∧
    (createPiece initHeap initIds ((25 : Int), (25 : Int))).maxDistance
      = some 3 ∧
    pieceIsLegal initHeap (createPiece initHeap initIds ((25 : Int), (25 : Int)))
        Player.black = false := by
  decide

/-- **C6** (amended).  Piece and Move construction perform no coordinate
validation: with a malformed origin such as (25,25) on the initial board, the
whole validation pipeline proceeds silently and returns an ordinary `False`
legality verdict (leaving the board untouched, the empty piece having nothing
to hide), for every destination, player and fuel. -/
theorem c6_malformed_center_silent_false :
    ∀ (fuel : Nat) (dest : Coord) (pl : Player),
      moveIsLegal fuel initState
        ⟨((25 : Int), (25 : Int)), dest, pl,
          createPiece initHeap initIds ((25 : Int), (25 : Int))⟩
        = some (false, initHeap) := by
  intro fuel dest pl
  have hS : stonesAboutCenter initHeap initIds ((25 : Int), (25 : Int)) = [] := by
    decide
  simp [moveIsLegal, pieceIsLegal, createPiece, mkPiece, hS, pickUp,
    containsColor, initState]

/-- **C7** (confirmed).  A zero-length move is rejected at the direction
gate: for every board state, every piece extracted by `create_piece` (whose
direction list can never contain `(0, 0)`), every player and any fuel, a move
whose origin equals its destination derives direction `(0, 0)`,
`is_direction_valid` fails, and `is_legal` returns `False` from the first
gate (the path-trace loop is never consulted). -/
theorem c7_zero_length_move_rejected :
    ∀ (fuel : Nat) (st : BState) (c origin : Coord) (pl : Player),
      moveIsLegal fuel st ⟨origin, origin, pl, createPiece st.heap st.ids c⟩
        = some (false, pickUp (createPiece st.heap st.ids c).stoneIds st.heap) := by
  intro fuel st c origin pl
  set p := createPiece st.heap st.ids c with hp
  have hrow : (⟨origin, origin, pl, p⟩ : Move).rowDisplacement = 0 := sub_self _
  have hcol : (⟨origin, origin, pl, p⟩ : Move).colDisplacement = 0 := sub_self _
  have hdirt : (⟨origin, origin, pl, p⟩ : Move).direction = ((0 : Int), (0 : Int)) := by
    rw [Move.direction, hrow, hcol]
    simp
  have hdv : isDirectionValid ⟨origin, origin, pl, p⟩ = false := by
    rw [isDirectionValid, if_neg, hdirt]
    · rw [hp]
      exact decide_eq_false (zero_not_mem_createPiece_directions st.heap st.ids c)
    · rw [hrow]
      simp
  simp [moveIsLegal, hdv]

/-- **C8** (confirmed).  For every piece as constructed by `Piece.__init__`,
the maximum distance is unbounded (`None`) exactly when some member stone
occupies the exact center, and it is 3 in every other case — in particular a
center stone accompanied by further stones still yields an unbounded
distance. -/
theorem c8_max_distance_unbounded_iff_center_stone :
    ∀ (h : Heap) (c : Coord) (ids : List Nat),
      ((mkPiece h c ids).maxDistance = none ↔ ∃ i ∈ ids, (h i).loc = c) ∧
      ((mkPiece h c ids).maxDistance = none ∨
        (mkPiece h c ids).maxDistance = some 3) := by
  intro h c ids
  by_cases ha : ids.any (fun i => decide ((h i).loc = c)) = true
  · have hex : ∃ i ∈ ids, (h i).loc = c := by simpa using ha
    simp [mkPiece_maxDistance, ha, hex]
  · rw [Bool.not_eq_true] at ha
    have hex : ¬ ∃ i ∈ ids, (h i).loc = c := by simpa using ha
    simp [mkPiece_maxDistance, ha, hex]

/-- **C9** (confirmed).  `GessGame.is_game_over` returns `False` in every
game state — the source compares the bound method `get_game_state` with the
string `"UNFINISHED"`, which is never true — including after `assign_victory`
or `resign_game` have genuinely set the state to a won state; consequently
the `if self.is_game_over(): return False` gate of `make_move` never rejects
a move. -/
theorem c9_is_game_over_always_false :
    ∀ (g : GessGame) (v : Player),
      isGameOver g = false ∧
      isGameOver (assignVictory v g) = false ∧
      isGameOver (resignGame g) = false ∧
      getGameState (assignVictory Player.white g) = GameState.whiteWon ∧
      getGameState (assignVictory Player.black g) = GameState.blackWon := by
  intro g v
  refine ⟨rfl, rfl, rfl, ?_, ?_⟩ <;> simp [assignVictory, getGameState]

/-- **C10** (confirmed).  For every piece whose member stones are un-hidden
on the heap, `pick_up()` followed by `put_down(center)` at the piece's own
center is the identity on the whole board state: the displacement is zero, so
every member stone is revealed back at exactly its original location and
every other stone is untouched. -/
theorem c10_pickup_putdown_roundtrip :
    ∀ (h : Heap) (p : Piece),
      (∀ i ∈ p.stoneIds, (h i).hidden = false) →
      putDown p p.center (pickUp p.stoneIds h) = h := by
  intro h p hunh
  funext j
  rw [putDown_center,
    foldl_update_apply_of_idem (fun s => { s with hidden := false })
      (fun _ => rfl)]
  by_cases hj : j ∈ p.stoneIds
  · rw [if_pos hj, pickUp_apply, if_pos hj]
    exact unhide_of_hidden_eq_false (hunh j hj)
  · rw [if_neg hj, pickUp_apply, if_neg hj]

/-- **C10** (witness).  The round-trip theorem applied to the BLACK piece
extracted at (3,3) from the initial board. -/
theorem c10_pickup_putdown_roundtrip_witness :
    (∀ i ∈ (createPiece initHeap initIds ((3 : Int), (3 : Int))).stoneIds,
      (initHeap i).hidden = false) ∧
    putDown (createPiece initHeap initIds ((3 : Int), (3 : Int)))
        (createPiece initHeap initIds ((3 : Int), (3 : Int))).center
        (pickUp (createPiece initHeap initIds ((3 : Int), (3 : Int))).stoneIds
          initHeap)
      = initHeap :=
  ⟨by decide,
    c10_pickup_putdown_roundtrip initHeap
      (createPiece initHeap initIds ((3 : Int), (3 : Int))) (by decide)⟩

end Gess





